import Mathlib

/-!
Verification of the PF2e random-encounter composition algorithm
(`generateEncounter` / `pickMonsters` in the encounter-generator logic file).

The JavaScript source is shallowly embedded: compendium index entries become
the `Monster` structure, the mutable loop variables of `pickMonsters` become
the `SelState` record, and every call to the global random source becomes a
read of an explicit draw stream `Nat → ℚ` at a cursor threaded through the
state.  The document-store fetch (`getDocument`) is modelled as returning the
index entry itself.
-/

namespace Pf2e

/-- A compendium index entry as consumed by `pickMonsters`:
`_id`, `name`, `type`, `system.details.level.value`, `system.traits.value`,
`system.traits.rarity` (absent rarity is `none`). -/
structure Monster where
  id : String
  name : String
  type : String
  level : Int
  traits : List String
  rarity : Option String
deriving DecidableEq, Repr

/-- JS `rarity?.toLowerCase() || 'common'`: a missing or empty rarity string
defaults to `"common"`. -/
def normRarity (r : Option String) : String :=
  match r with
  | none => "common"
  | some s => if s.toLower = "" then "common" else s.toLower

/-- JS `needle.isEmpty`-style substring scan: does `hay` contain `needle`
as a contiguous run (the semantics of `String.prototype.includes`)? -/
def subAux : List Char → List Char → Bool
  | needle, [] => needle.isEmpty
  | needle, c :: t => needle.isPrefixOf (c :: t) || subAux needle t

/-- `hay.includes(needle)` on strings. -/
def strIncl (hay needle : String) : Bool :=
  subAux needle.toList hay.toList

/-- The level/type filter applied to a pack index in `pickMonsters`:
`i.type === 'npc' && level >= apl - 3 && level <= apl + 2`. -/
def levelFiltered (index : List Monster) (apl : Int) : List Monster :=
  index.filter (fun i =>
    i.type == "npc" && decide (apl - 3 ≤ i.level) && decide (i.level ≤ apl + 2))

/-- The rarity filter layered on the level filter: applied only when the
requested rarity is not `"any"`; entries lacking rarity data count as
`common`. -/
def rarityFiltered (index : List Monster) (apl : Int) (requiredRarity : String) :
    List Monster :=
  let rarityLower := requiredRarity.toLower
  if rarityLower ≠ "any" then
    (levelFiltered index apl).filter (fun i => normRarity i.rarity == rarityLower)
  else
    levelFiltered index apl

/-- The candidate-filtering stage of `pickMonsters` for one pack index:
level window, then rarity, then (for a non-empty trait) trait-tag membership
with a name-substring fallback recomputed from the level-filtered index. -/
def filterPool (index : List Monster) (apl : Int)
    (requiredTrait requiredRarity : String) : List Monster :=
  let traitLower := requiredTrait.toLower
  let valid := rarityFiltered index apl requiredRarity
  if traitLower ≠ "" then
    let traitFiltered := valid.filter (fun i => i.traits.contains traitLower)
    if traitFiltered.isEmpty then
      (levelFiltered index apl).filter (fun i => strIncl i.name.toLower traitLower)
    else
      traitFiltered
  else
    valid

/-! ## Budget derivation (`generateEncounter`) -/

/-- The five difficulty tiers offered by the dialog. -/
inductive Difficulty
  | Trivial
  | Low
  | Moderate
  | Severe
  | Extreme
deriving DecidableEq, Repr

/-- The `xpValues` table of `generateEncounter`. -/
def xpValues : Difficulty → Int
  | .Trivial => 40
  | .Low => 60
  | .Moderate => 80
  | .Severe => 120
  | .Extreme => 160

/-- `xpBudget = baseXp + 20 * (partySize - 4)`, clamped below at 40. -/
def deriveBudget (tier : Difficulty) (partySize : Int) : Int :=
  let xpBudget := xpValues tier + 20 * (partySize - 4)
  if xpBudget < 40 then 40 else xpBudget

/-! ## The selection loop of `pickMonsters`

Randomness is modelled as an explicit stream of draws `Nat → ℚ` (one entry
per call to the global random source, which returns a value in `[0, 1)`),
consumed at a cursor carried in the state.  `candidateList[Math.floor(r *
candidateList.length)]` becomes `uniformPick`. -/

/-- The stream of values produced by successive calls to the random source. -/
abbrev Draws := Nat → ℚ

/-- `Math.floor(r * n)` coerced to an array index. -/
def pickIdx (r : ℚ) (n : Nat) : Nat :=
  (Rat.floor (r * (n : ℚ))).toNat

/-- `l[Math.floor(r * l.length)]`, `none` when the index is out of range
(JS would yield `undefined`). -/
def uniformPick (l : List Monster) (r : ℚ) : Option Monster :=
  l[pickIdx r l.length]?

/-- The mutable variables of the selection loop of `pickMonsters`, plus the
attempt counter and the position in the draw stream. -/
structure SelState where
  currentSpent : Int
  selected : List Monster
  selectedUniqueActorIds : List String
  selectedTraits : List String
  attempts : Nat
  cursor : Nat
deriving DecidableEq, Repr

/-- The state at the top of the loop: nothing spent, nothing selected. -/
def initState : SelState :=
  { currentSpent := 0, selected := [], selectedUniqueActorIds := [],
    selectedTraits := [], attempts := 0, cursor := 0 }

/-- `Set.prototype.add` on the insertion-ordered id set
`selectedUniqueActorIds`. -/
def addUniqueId (ids : List String) (i : String) : List String :=
  if ids.contains i then ids else ids ++ [i]

/-- `['common', 'uncommon', 'rare', 'unique']`, the `systemTraitsToExclude`
set of the synergy strategy. -/
def systemTraitsToExclude : List String :=
  ["common", "uncommon", "rare", "unique"]

/-- `selectedTraits.filter((t, i) => selectedTraits.indexOf(t) === i &&
!systemTraitsToExclude.has(t))`: keep the first occurrence of each trait,
dropping the four rarity tags.  `seen` is the prefix already scanned. -/
def dedupFilterAux (excl : List String) : List String → List String → List String
  | _, [] => []
  | seen, t :: rest =>
    if !seen.contains t && !excl.contains t then
      t :: dedupFilterAux excl (seen ++ [t]) rest
    else
      dedupFilterAux excl (seen ++ [t]) rest

/-- The `commonTraits` list computed by the synergy strategy from the
`selectedTraits` accumulator. -/
def commonTraitsOf (selectedTraits : List String) : List String :=
  dedupFilterAux systemTraitsToExclude [] selectedTraits

/-- The pool restriction of strategy 2: when previous picks have recorded
traits and some candidate shares a common (non-rarity) trait, one draw
decides (probability 0.6) whether to restrict to the synergistic pool.
Returns the pool to draw from and the advanced cursor. -/
def strategy2pool (candidates : List Monster) (st : SelState) (draws : Draws)
    (k : Nat) : List Monster × Nat :=
  if st.selectedTraits.length > 0 then
    let commonTraits := commonTraitsOf st.selectedTraits
    let synergisticCandidates := candidates.filter (fun c =>
      c.traits.any (fun t => commonTraits.contains t))
    if synergisticCandidates.length > 0 then
      if draws k < 6/10 then (synergisticCandidates, k + 1)
      else (candidates, k + 1)
    else (candidates, k)
  else (candidates, k)

/-- Strategy 2 of an attempt (synergy / new monster): restrict the pool per
`strategy2pool`, then pick uniformly (one more draw). -/
def strategy2 (candidates : List Monster) (st : SelState) (draws : Draws)
    (k : Nat) : Option Monster × Nat :=
  let pool := strategy2pool candidates st draws k
  (uniformPick pool.1 (draws pool.2), pool.2 + 1)

/-- One pick of the selection loop: strategy 1 (consistency, reuse an
already selected id with probability 0.7) with fallthrough to `strategy2`.
The strategy-1 draw happens only when the id set is non-empty, mirroring the
short-circuit `selectedUniqueActorIds.size > 0 && Math.random() < 0.7`. -/
def selectPick (candidates : List Monster) (st : SelState) (draws : Draws) :
    Option Monster × Nat :=
  if st.selectedUniqueActorIds.length > 0 then
    if draws st.cursor < 7/10 then
      let reusableIds := st.selectedUniqueActorIds
      match reusableIds[pickIdx (draws (st.cursor + 1)) reusableIds.length]? with
      | some reusableId =>
        match candidates.find? (fun c => c.id == reusableId) with
        | some p => (some p, st.cursor + 2)
        | none => strategy2 candidates st draws (st.cursor + 2)
      | none => strategy2 candidates st draws (st.cursor + 2)
    else
      strategy2 candidates st draws (st.cursor + 1)
  else
    strategy2 candidates st draws st.cursor

/-- The level-delta cost table; `none` is the final `else continue`. -/
def costOf (diff : Int) : Option Int :=
  if diff = -4 then some 10
  else if diff = -3 then some 15
  else if diff = -2 then some 20
  else if diff = -1 then some 30
  else if diff = 0 then some 40
  else if diff = 1 then some 60
  else if diff = 2 then some 80
  else none

/-- One iteration of the loop body after the `while` condition has passed:
`attempts++`, make a pick, cost it, and accept iff
`currentSpent + cost <= budget + 10`.  The compendium fetch is modelled as
returning the picked entry itself. -/
def stepAttempt (candidates : List Monster) (budget apl : Int) (draws : Draws)
    (st : SelState) : SelState :=
  match selectPick candidates st draws with
  | (none, k) => { st with attempts := st.attempts + 1, cursor := k }
  | (some p, k) =>
    match costOf (p.level - apl) with
    | none => { st with attempts := st.attempts + 1, cursor := k }
    | some cost =>
      if st.currentSpent + cost ≤ budget + 10 then
        { currentSpent := st.currentSpent + cost
          selected := st.selected ++ [p]
          selectedUniqueActorIds := addUniqueId st.selectedUniqueActorIds p.id
          selectedTraits := st.selectedTraits ++ p.traits
          attempts := st.attempts + 1
          cursor := k }
      else
        { st with attempts := st.attempts + 1, cursor := k }

/-- `while (currentSpent < budget && attempts < 100)`, run with explicit
fuel; `100` units of fuel suffice because every iteration increments
`attempts`. -/
def loopSel (candidates : List Monster) (budget apl : Int) (draws : Draws) :
    Nat → SelState → SelState
  | 0, st => st
  | fuel + 1, st =>
    if st.currentSpent < budget ∧ st.attempts < 100 then
      loopSel candidates budget apl draws fuel
        (stepAttempt candidates budget apl draws st)
    else st

/-- `pickMonsters` restricted to its selection phase: given the already
filtered candidate pool, return the selected entries (the early return for
an empty pool included). -/
def pickMonsters (candidates : List Monster) (budget apl : Int)
    (draws : Draws) : List Monster :=
  if candidates.isEmpty then []
  else (loopSel candidates budget apl draws 100 initState).selected

/-- Total table cost of a list of entries relative to `apl`. -/
def totalCost (apl : Int) (l : List Monster) : Int :=
  (l.map (fun m => (costOf (m.level - apl)).getD 0)).sum

/-- The synergistic pool as the specification words it: candidates sharing
at least one previously seen trait that is not one of the four rarity tags.
Used to state that the implementation's `commonTraits` bookkeeping realises
exactly this pool. -/
def specSynergyPool (candidates : List Monster) (seen : List String) :
    List Monster :=
  candidates.filter (fun c =>
    c.traits.any (fun t => seen.contains t && !systemTraitsToExclude.contains t))

/-! ## Concrete sample entries (used to instantiate the theorems) -/

/-- A level-0 common creature. -/
def goblin : Monster :=
  ⟨"a1", "Goblin", "npc", 0, ["goblin", "humanoid"], some "common"⟩

/-- A creature named `Fiendling` that lacks a `fiend` trait tag. -/
def fiendling : Monster :=
  ⟨"a2", "Fiendling", "npc", 1, ["humanoid"], none⟩

/-- A level `-2` uncommon creature. -/
def grizzly : Monster :=
  ⟨"a3", "Grizzly Bear", "npc", -2, ["animal"], some "uncommon"⟩

/-- A level `2` rare creature (table cost 80). -/
def dragon : Monster :=
  ⟨"a4", "Dragon", "npc", 2, ["dragon"], some "rare"⟩

/-! ## Basic lemmas about the loop body -/

/-- Every iteration of the loop body increments the attempt counter by
exactly one, whatever the outcome of the attempt. -/
theorem stepAttempt_attempts (C : List Monster) (b apl : Int) (d : Draws)
    (st : SelState) :
    (stepAttempt C b apl d st).attempts = st.attempts + 1 := by
  unfold stepAttempt
  rcases selectPick C st d with ⟨p, k⟩
  cases p with
  | none => rfl
  | some m =>
    dsimp only
    cases costOf (m.level - apl) with
    | none => rfl
    | some c => dsimp only; split <;> rfl

/-- A preserved predicate of the loop body is preserved by the whole loop. -/
theorem loopSel_inv (C : List Monster) (b apl : Int) (d : Draws)
    (P : SelState → Prop)
    (hstep : ∀ st, P st → P (stepAttempt C b apl d st)) :
    ∀ fuel st, P st → P (loopSel C b apl d fuel st)
  | 0, _, h => h
  | fuel + 1, st, h => by
    unfold loopSel
    split
    · exact loopSel_inv C b apl d P hstep fuel _ (hstep st h)
    · exact h

/-- C3: the derived budget is `baseXP[tier] + 20 × (partySize − 4)` clamped
below at 40, hence always at least 40, with the base-XP table mapping the
five tiers to 40, 60, 80, 120, 160; in particular Moderate at party size 4
gives 80, Trivial at 6 gives 80 and Extreme at 2 gives 120. -/
theorem deriveBudget_spec (tier : Difficulty) (partySize : Int)
    (h : 1 ≤ partySize) :
    (deriveBudget tier partySize =
        max 40 (xpValues tier + 20 * (partySize - 4)) ∧
      40 ≤ deriveBudget tier partySize) ∧
    deriveBudget .Moderate 4 = 80 ∧
    deriveBudget .Trivial 6 = 80 ∧
    deriveBudget .Extreme 2 = 120 ∧
    xpValues .Trivial = 40 ∧ xpValues .Low = 60 ∧ xpValues .Moderate = 80 ∧
    xpValues .Severe = 120 ∧ xpValues .Extreme = 160 := by
  refine ⟨⟨?_, ?_⟩, by decide, by decide, by decide, rfl, rfl, rfl, rfl, rfl⟩
  · unfold deriveBudget
    dsimp only
    rcases le_or_lt 40 (xpValues tier + 20 * (partySize - 4)) with hle | hlt
    · rw [if_neg (by omega), max_eq_right hle]
    · rw [if_pos hlt, max_eq_left (by omega)]
  · unfold deriveBudget
    dsimp only
    split <;> omega

/-- Instantiation of `deriveBudget_spec` at a party of four. -/
theorem deriveBudget_spec_witness :
    (1 : Int) ≤ 4 ∧ 40 ≤ deriveBudget .Severe 4 :=
  ⟨by decide, ((deriveBudget_spec .Severe 4 (by decide)).1).2⟩

/-- C6: an empty filtered candidate pool yields an empty selection, and the
selection phase always produces a result (the embedding is a total
function, so no exception can escape it). -/
theorem pickMonsters_empty_pool (budget apl : Int) (d : Draws) :
    pickMonsters [] budget apl d = [] ∧
    ∀ candidates : List Monster,
      ∃ result, pickMonsters candidates budget apl d = result :=
  ⟨rfl, fun _ => ⟨_, rfl⟩⟩

/-- C7: the selection phase is a deterministic function of the candidate
pool, budget, apl and the draw stream: two runs over pointwise-equal
streams return the same chosen sequence. -/
theorem pickMonsters_deterministic (C : List Monster) (budget apl : Int)
    (d1 d2 : Draws) (h : ∀ n, d1 n = d2 n) :
    pickMonsters C budget apl d1 = pickMonsters C budget apl d2 := by
  have hd : d1 = d2 := funext h
  rw [hd]

/-- Instantiation of `pickMonsters_deterministic` on two syntactically
different but pointwise-equal streams. -/
theorem pickMonsters_deterministic_witness :
    pickMonsters [goblin, dragon] 80 0 (fun _ => 0) =
      pickMonsters [goblin, dragon] 80 0 (fun _ => 0 + 0) :=
  pickMonsters_deterministic [goblin, dragon] 80 0 _ _
    (fun _ => (zero_add 0).symm)

/-- With enough fuel to cover the remaining attempts, the loop stops in a
state where the budget is met or the attempt cap is hit. -/
theorem loopSel_exit {C : List Monster} {b apl : Int} {d : Draws} :
    ∀ fuel st, st.attempts + fuel = 100 →
      (loopSel C b apl d fuel st).attempts ≤ 100 ∧
        (b ≤ (loopSel C b apl d fuel st).currentSpent ∨
          (loopSel C b apl d fuel st).attempts = 100)
  | 0, st, h => by
    unfold loopSel
    omega
  | fuel + 1, st, h => by
    unfold loopSel
    split
    case isTrue hcond =>
      exact loopSel_exit fuel _ (by rw [stepAttempt_attempts]; omega)
    case isFalse hcond =>
      rw [Classical.not_and_iff_or_not_not] at hcond
      rcases hcond with hs | ha
      · exact ⟨by omega, Or.inl (by omega)⟩
      · omega

/-- C2: for every candidate pool, budget, apl and draw stream the selection
loop performs at most 100 attempts (so it terminates: `loopSel` is a total
function), and on exit the budget has been reached or the attempt counter
equals 100. -/
theorem loopSel_attempt_bound (C : List Monster) (budget apl : Int)
    (d : Draws) :
    (loopSel C budget apl d 100 initState).attempts ≤ 100 ∧
      (budget ≤ (loopSel C budget apl d 100 initState).currentSpent ∨
        (loopSel C budget apl d 100 initState).attempts = 100) :=
  loopSel_exit 100 initState rfl

/-- A rejected or failed attempt leaves the spent total unchanged, and an
accepted one respects the overshoot bound, so the bound is preserved. -/
theorem stepAttempt_spent_le {C : List Monster} {b apl : Int} {d : Draws}
    (st : SelState) (h : st.currentSpent ≤ b + 10) :
    (stepAttempt C b apl d st).currentSpent ≤ b + 10 := by
  unfold stepAttempt
  rcases selectPick C st d with ⟨p, k⟩
  cases p with
  | none => exact h
  | some m =>
    dsimp only
    cases costOf (m.level - apl) with
    | none => exact h
    | some c =>
      dsimp only
      split
      case isTrue hacc => simpa using hacc
      case isFalse => exact h

/-- The spent total always equals the summed table cost of the selected
entries. -/
theorem stepAttempt_cost_eq {C : List Monster} {b apl : Int} {d : Draws}
    (st : SelState) (h : st.currentSpent = totalCost apl st.selected) :
    (stepAttempt C b apl d st).currentSpent =
      totalCost apl (stepAttempt C b apl d st).selected := by
  unfold stepAttempt
  rcases selectPick C st d with ⟨p, k⟩
  cases p with
  | none => exact h
  | some m =>
    dsimp only
    cases hc : costOf (m.level - apl) with
    | none => exact h
    | some c =>
      dsimp only
      split
      case isTrue hacc =>
        simp only [totalCost, List.map_append, List.sum_append, List.map_cons,
          List.map_nil, List.sum_cons, List.sum_nil, hc, Option.getD_some]
        simp only [totalCost] at h
        omega
      case isFalse => exact h

/-- C1: with a non-negative budget the chosen sequence's total table cost is
at most `budget + 10`; the final spent total equals that sum, and the bound
`currentSpent ≤ budget + 10` is preserved by every single attempt, so it
holds at every point of the run. -/
theorem pickMonsters_cost_bound (C : List Monster) (budget apl : Int)
    (d : Draws) (hb : 0 ≤ budget) :
    totalCost apl (pickMonsters C budget apl d) ≤ budget + 10 ∧
    (loopSel C budget apl d 100 initState).currentSpent =
      totalCost apl (loopSel C budget apl d 100 initState).selected ∧
    ∀ st : SelState, st.currentSpent ≤ budget + 10 →
      (stepAttempt C budget apl d st).currentSpent ≤ budget + 10 := by
  have hinv := loopSel_inv C budget apl d
      (fun st => st.currentSpent ≤ budget + 10 ∧
        st.currentSpent = totalCost apl st.selected)
      (fun st hst => ⟨stepAttempt_spent_le st hst.1, stepAttempt_cost_eq st hst.2⟩)
      100 initState ⟨by simp [initState]; omega, by simp [initState, totalCost]⟩
  refine ⟨?_, hinv.2, fun st hst => stepAttempt_spent_le st hst⟩
  unfold pickMonsters
  split
  · simp [totalCost]; omega
  · exact hinv.2 ▸ hinv.1

/-- Instantiation of `pickMonsters_cost_bound` on a one-goblin pool. -/
theorem pickMonsters_cost_bound_witness :
    (0 : Int) ≤ 40 ∧
      totalCost 0 (pickMonsters [goblin] 40 0 (fun _ => 0)) ≤ 40 + 10 :=
  ⟨by decide, (pickMonsters_cost_bound [goblin] 40 0 (fun _ => 0) (by decide)).1⟩

/-- A uniform pick comes from the list it draws from. -/
theorem uniformPick_mem {l : List Monster} {r : ℚ} {p : Monster}
    (h : uniformPick l r = some p) : p ∈ l := by
  unfold uniformPick at h
  rcases List.getElem?_eq_some.1 h with ⟨hlt, rfl⟩
  exact List.getElem_mem hlt

/-- The strategy-2 pool is always a sub-collection of the candidate pool. -/
theorem strategy2pool_subset (C : List Monster) (st : SelState) (d : Draws)
    (k : Nat) : ∀ p ∈ (strategy2pool C st d k).1, p ∈ C := by
  unfold strategy2pool
  split
  · dsimp only
    split
    · split
      · exact fun p hp => (List.mem_filter.1 hp).1
      · exact fun p hp => hp
    · exact fun p hp => hp
  · exact fun p hp => hp

/-- A strategy-2 pick is a member of the candidate pool. -/
theorem strategy2_mem {C : List Monster} {st : SelState} {d : Draws}
    {k k2 : Nat} {p : Monster} (h : strategy2 C st d k = (some p, k2)) :
    p ∈ C :=
  strategy2pool_subset C st d k p (uniformPick_mem (congrArg Prod.fst h))

/-- Any pick made by an attempt is a member of the candidate pool. -/
theorem selectPick_mem {C : List Monster} {st : SelState} {d : Draws}
    {p : Monster} {k : Nat} (h : selectPick C st d = (some p, k)) : p ∈ C := by
  unfold selectPick at h
  split at h
  · split at h
    · dsimp only at h
      split at h
      · split at h
        next hfind =>
          rw [Prod.mk.injEq] at h
          obtain rfl := Option.some.inj h.1
          exact List.mem_of_find?_eq_some hfind
        next => exact strategy2_mem h
      next => exact strategy2_mem h
    · exact strategy2_mem h
  · exact strategy2_mem h

/-- One attempt can only append pool members to the chosen sequence. -/
theorem stepAttempt_selected_subset {C : List Monster} {b apl : Int}
    {d : Draws} (st : SelState) (h : ∀ m ∈ st.selected, m ∈ C) :
    ∀ m ∈ (stepAttempt C b apl d st).selected, m ∈ C := by
  unfold stepAttempt
  rcases hp : selectPick C st d with ⟨p, k⟩
  cases p with
  | none => exact h
  | some q =>
    dsimp only
    cases costOf (q.level - apl) with
    | none => exact h
    | some c =>
      dsimp only
      split
      · intro m hm
        rcases List.mem_append.1 hm with hm | hm
        · exact h m hm
        · rcases List.mem_singleton.1 hm with rfl
          exact selectPick_mem hp
      · exact h

/-- The whole selection returns only pool members. -/
theorem pickMonsters_subset (C : List Monster) (budget apl : Int)
    (d : Draws) : ∀ m ∈ pickMonsters C budget apl d, m ∈ C := by
  unfold pickMonsters
  split
  · simp
  · exact loopSel_inv C budget apl d (fun st => ∀ m ∈ st.selected, m ∈ C)
      (fun st hst => stepAttempt_selected_subset st hst) 100 initState
      (by simp [initState])

/-- C9: every entry of the chosen sequence returned by a selection run is an
element of the filtered candidate pool supplied to that run; no entry is
fabricated. -/
theorem pickMonsters_no_fabrication (C : List Monster) (budget apl : Int)
    (d : Draws) : ∀ m ∈ pickMonsters C budget apl d, m ∈ C :=
  pickMonsters_subset C budget apl d

/-- Instantiation of `pickMonsters_no_fabrication` on a concrete run that
chooses the goblin. -/
theorem pickMonsters_no_fabrication_witness :
    goblin ∈ [goblin, dragon] :=
  pickMonsters_no_fabrication [goblin, dragon] 40 0 (fun _ => 0) goblin
    (by with_unfolding_all decide)

/-- C8: an attempt whose candidate is not accepted — no pick at all, a
level-delta outside the cost table, or a cost that would push the spent
total past `budget + 10` — leaves the spent total, chosen sequence,
distinct-id set and seen-traits accumulator unchanged; only the attempt
counter and the draw cursor move on. -/
theorem stepAttempt_reject_frame (C : List Monster) (b apl : Int) (d : Draws)
    (st : SelState) :
    (∀ k, selectPick C st d = (none, k) →
      stepAttempt C b apl d st =
        { st with attempts := st.attempts + 1, cursor := k }) ∧
    (∀ p k, selectPick C st d = (some p, k) →
      (costOf (p.level - apl) = none ∨
        ∀ c, costOf (p.level - apl) = some c →
          b + 10 < st.currentSpent + c) →
      stepAttempt C b apl d st =
        { st with attempts := st.attempts + 1, cursor := k }) := by
  constructor
  · intro k hk
    unfold stepAttempt
    rw [hk]
  · intro p k hk hrej
    unfold stepAttempt
    rw [hk]
    dsimp only
    rcases hc : costOf (p.level - apl) with _ | c
    · rfl
    · dsimp only
      rcases hrej with h0 | h0
      · rw [hc] at h0
        exact Option.noConfusion h0
      · rw [if_neg (by have := h0 c hc; omega)]

/-- Instantiation of `stepAttempt_reject_frame`: a lone dragon (cost 80)
never fits a budget of 40, so the first attempt changes no selection
state. -/
theorem stepAttempt_reject_frame_witness :
    stepAttempt [dragon] 40 0 (fun _ => 0) initState =
      { initState with attempts := 1, cursor := 1 } :=
  (stepAttempt_reject_frame [dragon] 40 0 (fun _ => 0) initState).2 dragon 1
    (by with_unfolding_all decide)
    (Or.inr (fun c hc => by
      have hc80 : c = 80 := by
        have : costOf (dragon.level - 0) = some 80 := by decide
        rw [this] at hc
        exact (Option.some.inj hc).symm
      subst hc80
      decide))

/-- C5: with a non-empty trait the filter keeps the entries (of the
level- and rarity-filtered pool) whose trait set contains the lowercased
trait; when that set is empty the result is instead recomputed from the
level-filtered pool (the rarity filter is dropped), keeping the entries
whose name contains the trait as a case-insensitive substring; in
particular a pool with no entry tagged `fiend` but an entry named
`Fiendling` yields that entry. -/
theorem filterPool_trait_cases (index : List Monster) (apl : Int)
    (trait rarity : String) (h : trait.toLower ≠ "") :
    ((rarityFiltered index apl rarity).filter
        (fun i => i.traits.contains trait.toLower) ≠ [] →
      filterPool index apl trait rarity =
        (rarityFiltered index apl rarity).filter
          (fun i => i.traits.contains trait.toLower)) ∧
    ((rarityFiltered index apl rarity).filter
        (fun i => i.traits.contains trait.toLower) = [] →
      filterPool index apl trait rarity =
        (levelFiltered index apl).filter
          (fun i => strIncl i.name.toLower trait.toLower)) ∧
    filterPool [grizzly, fiendling] 0 "fiend" "any" = [fiendling] := by
  refine ⟨?_, ?_, by with_unfolding_all decide⟩
  · intro hne
    unfold filterPool
    dsimp only
    rw [if_pos h, if_neg (by simpa [List.isEmpty_iff] using hne)]
  · intro hempty
    unfold filterPool
    dsimp only
    rw [if_pos h, if_pos (by simpa [List.isEmpty_iff] using hempty)]

/-- Instantiation of `filterPool_trait_cases`: the `Fiendling` pool goes
through the name-substring fallback. -/
theorem filterPool_trait_cases_witness :
    filterPool [grizzly, fiendling] 0 "fiend" "any" =
      (levelFiltered [grizzly, fiendling] 0).filter
        (fun i => strIncl i.name.toLower ("fiend".toLower)) :=
  (filterPool_trait_cases [grizzly, fiendling] 0 "fiend" "any"
      (by with_unfolding_all decide)).2.1 (by with_unfolding_all decide)

/-- Two booleans agreeing as propositions are equal. -/
theorem bool_eq_of_iff {a b : Bool} (h : a = true ↔ b = true) : a = b := by
  cases a <;> cases b <;> simp_all

/-- Membership in the indexOf-style dedup-and-exclude pass: an element
survives iff it occurs in the scanned list, is not excluded, and did not
already occur in the prefix `seen`. -/
theorem mem_dedupFilterAux (excl : List String) :
    ∀ (ts seen : List String) (t : String),
      t ∈ dedupFilterAux excl seen ts ↔ t ∈ ts ∧ t ∉ excl ∧ t ∉ seen
  | [], seen, t => by simp [dedupFilterAux]
  | a :: rest, seen, t => by
    unfold dedupFilterAux
    split
    case isTrue hcond =>
      simp at hcond
      have ha1 : a ∉ seen := hcond.1
      have ha2 : a ∉ excl := hcond.2
      simp only [List.mem_cons]
      rw [mem_dedupFilterAux excl rest (seen ++ [a])]
      constructor
      · rintro (rfl | ⟨hr, hex, hns⟩)
        · exact ⟨Or.inl rfl, ha2, ha1⟩
        · exact ⟨Or.inr hr, hex, fun hs => hns (List.mem_append.2 (Or.inl hs))⟩
      · rintro ⟨hta | hr, hex, hns⟩
        · exact Or.inl hta
        · by_cases hta : t = a
          · exact Or.inl hta
          · refine Or.inr ⟨hr, hex, fun hmem => ?_⟩
            rcases List.mem_append.1 hmem with hs | hs
            · exact hns hs
            · exact hta (List.mem_singleton.1 hs)
    case isFalse hcond =>
      have hse : a ∈ seen ∨ a ∈ excl := by
        simp at hcond
        tauto
      simp only [List.mem_cons]
      rw [mem_dedupFilterAux excl rest (seen ++ [a])]
      constructor
      · rintro ⟨hr, hex, hns⟩
        exact ⟨Or.inr hr, hex, fun hs => hns (List.mem_append.2 (Or.inl hs))⟩
      · rintro ⟨hta | hr, hex, hns⟩
        · subst hta
          rcases hse with hs | hs
          · exact absurd hs hns
          · exact absurd hs hex
        · refine ⟨hr, hex, fun hmem => ?_⟩
          rcases List.mem_append.1 hmem with hs | hs
          · exact hns hs
          · rcases List.mem_singleton.1 hs with rfl
            rcases hse with h2 | h2
            · exact hns h2
            · exact hex h2

/-- The implementation's `commonTraits` list answers membership queries
exactly like "seen and not a rarity tag". -/
theorem commonTraitsOf_contains (ts : List String) (t : String) :
    (commonTraitsOf ts).contains t =
      (ts.contains t && !systemTraitsToExclude.contains t) := by
  apply bool_eq_of_iff
  have h1 : t ∈ commonTraitsOf ts ↔ t ∈ ts ∧ t ∉ systemTraitsToExclude := by
    unfold commonTraitsOf
    rw [mem_dedupFilterAux]
    simp
  simp [h1]

/-- The synergistic candidate list computed from `commonTraits` is exactly
the specification's synergy pool. -/
theorem synergisticCandidates_eq (C : List Monster) (seen : List String) :
    C.filter (fun c => c.traits.any (fun t => (commonTraitsOf seen).contains t)) =
      specSynergyPool C seen := by
  unfold specSynergyPool
  apply List.filter_congr
  intro c _
  have h : (fun t => (commonTraitsOf seen).contains t) =
      (fun t => seen.contains t && !systemTraitsToExclude.contains t) :=
    funext (fun t => commonTraitsOf_contains seen t)
  rw [h]

/-- With no previously seen traits the synergy pool is empty. -/
theorem specSynergyPool_nil (C : List Monster) : specSynergyPool C [] = [] := by
  unfold specSynergyPool
  simp

/-- The computable `Rat.floor` agrees with the floor of the ordered field. -/
theorem ratFloor_eq_intFloor (q : ℚ) : Rat.floor q = ⌊q⌋ :=
  (Rat.floor_def' q).trans Rat.floor_def.symm

/-- A draw in `[0, 1)` indexes inside a non-empty list. -/
theorem pickIdx_lt {r : ℚ} {n : Nat} (h0 : 0 ≤ r) (h1 : r < 1) (hn : 0 < n) :
    pickIdx r n < n := by
  unfold pickIdx
  rw [ratFloor_eq_intFloor]
  have hmul0 : 0 ≤ r * (n : ℚ) := by positivity
  have hup : ⌊r * (n : ℚ)⌋ < (n : Int) := by
    rw [Int.floor_lt]
    push_cast
    have hnq : (0 : ℚ) < (n : ℚ) := by exact_mod_cast hn
    calc r * (n : ℚ) < 1 * (n : ℚ) := by
          exact mul_lt_mul_of_pos_right h1 hnq
      _ = (n : ℚ) := one_mul _
  have hlo : 0 ≤ ⌊r * (n : ℚ)⌋ := Int.floor_nonneg.mpr hmul0
  omega

/-- C4: the per-attempt selection rule.  With a prior pick and first draw
below 0.7, the pick is the candidate found for an id drawn uniformly from
the distinct already-chosen ids.  Otherwise strategy 2 runs (consuming the
first draw only when the id set was non-empty): when some candidate shares a
previously seen non-rarity trait, a draw below 0.6 restricts to that
synergy pool and one more draw picks uniformly from it, a draw at or above
0.6 picks uniformly from the full list, and with an empty synergy pool the
pick is uniform from the full list with no synergy draw. -/
theorem selectPick_branches (C : List Monster) (st : SelState) (d : Draws) :
    (st.selectedUniqueActorIds ≠ [] → d st.cursor < 7/10 →
      0 ≤ d (st.cursor + 1) → d (st.cursor + 1) < 1 →
      (∀ i ∈ st.selectedUniqueActorIds, ∃ c ∈ C, c.id = i) →
      ∃ rid, st.selectedUniqueActorIds[pickIdx (d (st.cursor + 1))
          st.selectedUniqueActorIds.length]? = some rid ∧
        ∃ p, selectPick C st d = (some p, st.cursor + 2) ∧
          p ∈ C ∧ p.id = rid) ∧
    ((st.selectedUniqueActorIds = [] ∨ 7/10 ≤ d st.cursor) →
      selectPick C st d = strategy2 C st d
        (if st.selectedUniqueActorIds = [] then st.cursor
         else st.cursor + 1)) ∧
    (∀ k, (specSynergyPool C st.selectedTraits ≠ [] →
        (d k < 6/10 →
          strategy2 C st d k =
            (uniformPick (specSynergyPool C st.selectedTraits) (d (k + 1)),
              k + 2)) ∧
        (6/10 ≤ d k →
          strategy2 C st d k = (uniformPick C (d (k + 1)), k + 2))) ∧
      (specSynergyPool C st.selectedTraits = [] →
        strategy2 C st d k = (uniformPick C (d k), k + 1))) := by
  refine ⟨?_, ?_, ?_⟩
  · intro hne h7 h0 h1 hcover
    have hlen : 0 < st.selectedUniqueActorIds.length := List.length_pos.mpr hne
    have hidx := pickIdx_lt h0 h1 hlen
    have hsome : st.selectedUniqueActorIds[pickIdx (d (st.cursor + 1))
        st.selectedUniqueActorIds.length]? =
        some (st.selectedUniqueActorIds.get
          ⟨pickIdx (d (st.cursor + 1)) st.selectedUniqueActorIds.length,
            hidx⟩) :=
      List.getElem?_eq_getElem hidx
    refine ⟨_, hsome, ?_⟩
    obtain ⟨cc, hccmem, hccid⟩ := hcover _ (List.getElem_mem hidx)
    have hfs : (C.find? (fun c => c.id ==
        st.selectedUniqueActorIds.get
          ⟨pickIdx (d (st.cursor + 1)) st.selectedUniqueActorIds.length,
            hidx⟩)).isSome :=
      List.find?_isSome.mpr ⟨cc, hccmem, by simp [hccid]⟩
    obtain ⟨p, hp⟩ := Option.isSome_iff_exists.mp hfs
    refine ⟨p, ?_, List.mem_of_find?_eq_some hp, by simpa using List.find?_some hp⟩
    unfold selectPick
    rw [if_pos hlen, if_pos h7]
    dsimp only
    rw [hsome]
    dsimp only
    rw [hp]
  · intro hca
    unfold selectPick
    rcases hca with hnil | hge
    · rw [if_neg (by simp [hnil]), if_pos hnil]
    · by_cases hnil : st.selectedUniqueActorIds = []
      · rw [if_neg (by simp [hnil]), if_pos hnil]
      · rw [if_pos (List.length_pos.mpr hnil), if_neg (not_lt.mpr hge),
          if_neg hnil]
  · intro k
    constructor
    · intro hsne
      have hseen : st.selectedTraits ≠ [] := by
        intro h0
        rw [h0, specSynergyPool_nil] at hsne
        exact hsne rfl
      constructor
      · intro h6
        unfold strategy2 strategy2pool
        rw [if_pos (List.length_pos.mpr hseen)]
        dsimp only
        rw [synergisticCandidates_eq,
          if_pos (List.length_pos.mpr hsne), if_pos h6]
      · intro h6
        unfold strategy2 strategy2pool
        rw [if_pos (List.length_pos.mpr hseen)]
        dsimp only
        rw [synergisticCandidates_eq,
          if_pos (List.length_pos.mpr hsne), if_neg (not_lt.mpr h6)]
    · intro hsnil
      unfold strategy2 strategy2pool
      by_cases hseen : st.selectedTraits.length > 0
      · rw [if_pos hseen]
        dsimp only
        rw [synergisticCandidates_eq, hsnil]
        rw [if_neg (by simp)]
      · rw [if_neg hseen]

/-- Instantiation of `selectPick_branches`: one goblin already chosen, the
draws 0 fire the consistency branch and re-pick it by id. -/
theorem selectPick_branches_witness :
    ∃ rid, (["a1"] : List String)[pickIdx 0 1]? = some rid ∧
      ∃ p, selectPick [goblin, dragon]
          { currentSpent := 40, selected := [goblin],
            selectedUniqueActorIds := ["a1"],
            selectedTraits := ["goblin", "humanoid"],
            attempts := 1, cursor := 1 } (fun _ => 0) = (some p, 3) ∧
        p ∈ [goblin, dragon] ∧ p.id = rid :=
  (selectPick_branches [goblin, dragon]
      { currentSpent := 40, selected := [goblin],
        selectedUniqueActorIds := ["a1"],
        selectedTraits := ["goblin", "humanoid"],
        attempts := 1, cursor := 1 } (fun _ => 0)).1
    (by with_unfolding_all decide) (by with_unfolding_all decide)
    (by with_unfolding_all decide) (by with_unfolding_all decide)
    (by with_unfolding_all decide)

/-- Entries surviving the level/type filter sit in the six-level window. -/
theorem mem_levelFiltered {index : List Monster} {apl : Int} {m : Monster}
    (h : m ∈ levelFiltered index apl) :
    apl - 3 ≤ m.level ∧ m.level ≤ apl + 2 := by
  have hp := (List.mem_filter.1 h).2
  simp only [Bool.and_eq_true, decide_eq_true_eq] at hp
  exact ⟨hp.1.2, hp.2⟩

/-- The rarity filter only narrows the level-filtered pool. -/
theorem mem_rarityFiltered_level {index : List Monster} {apl : Int}
    {rarity : String} {m : Monster} (h : m ∈ rarityFiltered index apl rarity) :
    m ∈ levelFiltered index apl := by
  unfold rarityFiltered at h
  dsimp only at h
  split at h
  · exact (List.mem_filter.1 h).1
  · exact h

/-- Every branch of the candidate filter produces level-window entries. -/
theorem mem_filterPool_level {index : List Monster} {apl : Int}
    {trait rarity : String} {m : Monster}
    (h : m ∈ filterPool index apl trait rarity) :
    m ∈ levelFiltered index apl := by
  unfold filterPool at h
  dsimp only at h
  split at h
  · split at h
    · exact (List.mem_filter.1 h).1
    · exact mem_rarityFiltered_level (List.mem_filter.1 h).1
  · exact mem_rarityFiltered_level h

/-- For deltas in `[-3, 2]` the cost table answers at least 15 and never
takes the `-4` branch. -/
theorem costOf_window (diff : Int) (h3 : -3 ≤ diff) (h2 : diff ≤ 2) :
    costOf diff ≠ some 10 ∧ ∃ c, costOf diff = some c ∧ 15 ≤ c := by
  have hcases : diff = -3 ∨ diff = -2 ∨ diff = -1 ∨ diff = 0 ∨ diff = 1 ∨
      diff = 2 := by omega
  rcases hcases with rfl | rfl | rfl | rfl | rfl | rfl
  · exact ⟨by decide, 15, by decide, by decide⟩
  · exact ⟨by decide, 20, by decide, by decide⟩
  · exact ⟨by decide, 30, by decide, by decide⟩
  · exact ⟨by decide, 40, by decide, by decide⟩
  · exact ⟨by decide, 60, by decide, by decide⟩
  · exact ⟨by decide, 80, by decide, by decide⟩

/-- C10: every entry of a filtered pool has level-delta in `[-3, 2]` (the
filter's lower bound is `apl - 3`, so delta `-4` cannot occur); hence for
such pools every pick's cost-table lookup succeeds with a cost of at least
15, the 10-cost branch and the out-of-range discard are unreachable, and
every entry the run returns contributes at least 15. -/
theorem filterPool_delta_window (index : List Monster) (apl : Int)
    (trait rarity : String) (b : Int) (d : Draws) :
    (∀ m ∈ filterPool index apl trait rarity,
        -3 ≤ m.level - apl ∧ m.level - apl ≤ 2) ∧
    (∀ C : List Monster,
      (∀ m ∈ C, apl - 3 ≤ m.level ∧ m.level ≤ apl + 2) →
      ∀ st p k, selectPick C st d = (some p, k) →
        costOf (p.level - apl) ≠ some 10 ∧
          ∃ c, costOf (p.level - apl) = some c ∧ 15 ≤ c) ∧
    (∀ m ∈ pickMonsters (filterPool index apl trait rarity) b apl d,
        ∃ c, costOf (m.level - apl) = some c ∧ 15 ≤ c ∧ c ≠ 10) := by
  have hwin : ∀ m ∈ filterPool index apl trait rarity,
      apl - 3 ≤ m.level ∧ m.level ≤ apl + 2 :=
    fun m hm => mem_levelFiltered (mem_filterPool_level hm)
  refine ⟨fun m hm => by have := hwin m hm; omega, ?_, ?_⟩
  · intro C hC st p k hp
    have hmem := selectPick_mem hp
    have hw := hC p hmem
    exact costOf_window _ (by omega) (by omega)
  · intro m hm
    have hmem := pickMonsters_subset _ b apl d m hm
    have hw := hwin m hmem
    obtain ⟨hne, c, hc, h15⟩ := costOf_window
      (m.level - apl) (by omega) (by omega)
    refine ⟨c, hc, h15, fun h10 => hne ?_⟩
    rw [hc, h10]

/-- Instantiation of `filterPool_delta_window`: the run over the filtered
goblin/dragon pool returns the goblin at cost 40. -/
theorem filterPool_delta_window_witness :
    ∃ c, costOf (goblin.level - 0) = some c ∧ 15 ≤ c ∧ c ≠ 10 :=
  (filterPool_delta_window [goblin, dragon] 0 "" "any" 40 (fun _ => 0)).2.2
    goblin (by with_unfolding_all decide)

end Pf2e
